import Mathlib

/-!
Verification of the nested-sheet component (src/src/components/ui/nested-sheet.tsx).

The registry kept by `NestedSheetsProvider` is a JavaScript `Map<string, number>`
from sheet identity to nesting level; we embed it as an insertion-ordered
association list, with `mapSet`/`mapDelete`/`mapGet` mirroring `Map.set`,
`Map.delete` and `Map.get`.  The geometry (`buildTransform` and the style
computed by `NestedSheetContent`) is embedded over ℚ, and the React effects
(dev-mode deep-nesting warning, register/unregister lifecycle) are embedded as
folds over commit traces.
-/

namespace NestedSheets

/-- The registry state: JS `Map<string, number>` as an insertion-ordered
association list from sheet id to nesting level. -/
abbrev Registry := List (String × Nat)

/-- `Map.get`: the value stored for `id`, if any. -/
def mapGet (r : Registry) (id : String) : Option Nat :=
  match r with
  | [] => none
  | p :: rest => if p.1 = id then some p.2 else mapGet rest id

/-- `Map.set`: overwrite the value in place when the key is present, append
otherwise (JS `Map` preserves insertion order). -/
def mapSet (r : Registry) (id : String) (level : Nat) : Registry :=
  match r with
  | [] => [(id, level)]
  | p :: rest => if p.1 = id then (p.1, level) :: rest else p :: mapSet rest id level

/-- `Map.delete`: drop the entry with the given key, if present. -/
def mapDelete (r : Registry) (id : String) : Registry :=
  r.filter (fun p => p.1 != id)

/-- `registerSheet` from the provider: `next.set(id, level)`. -/
def registerSheet (r : Registry) (id : String) (level : Nat) : Registry :=
  mapSet r id level

/-- `unregisterSheet` from the provider: `next.delete(id)`. -/
def unregisterSheet (r : Registry) (id : String) : Registry :=
  mapDelete r id

/-- `Array.from(openSheets.values())`. -/
def sheetValues (r : Registry) : List Nat :=
  r.map Prod.snd

/-- The keys of the registry, used to state the map invariant. -/
def sheetKeys (r : Registry) : List String :=
  r.map Prod.fst

/-- The `Map` invariant: no key occurs twice. -/
def keysNodup (r : Registry) : Prop :=
  (sheetKeys r).Nodup

/-- `maxLevel` from the provider: `0` when the map is empty, otherwise
`Math.max(...Array.from(openSheets.values()))`. -/
def maxLevel (r : Registry) : Nat :=
  match sheetValues r with
  | [] => 0
  | v :: vs => vs.foldl max v

/-- `hasNestedSheetOpen` from the provider: `false` when `id` is absent,
otherwise whether some stored level is strictly greater than `id`'s level. -/
def hasNestedSheetOpen (r : Registry) (id : String) : Bool :=
  match mapGet r id with
  | none => false
  | some currentLevel => (sheetValues r).any (fun level => currentLevel < level)

/-- One registry mutation, as exposed to the nesting nodes. -/
inductive RegistryOp
  | register (id : String) (level : Nat)
  | unregister (id : String)
deriving DecidableEq

/-- Apply one mutation to the registry. -/
def applyOp (r : Registry) : RegistryOp → Registry
  | .register id level => registerSheet r id level
  | .unregister id => unregisterSheet r id

/-- The registry reached from the empty map by a sequence of
register/unregister calls. -/
def applyOps (ops : List RegistryOp) : Registry :=
  ops.foldl applyOp []

/-! ## Geometry (`buildTransform` and `NestedSheetContent`) -/

/-- `SCALE_STEP = 0.05`. -/
def SCALE_STEP : ℚ := 5 / 100

/-- `MIN_SCALE = 0.5`. -/
def MIN_SCALE : ℚ := 1 / 2

/-- `OFFSET_MULTIPLIER = 16`. -/
def OFFSET_MULTIPLIER : ℚ := 16

/-- `BOTTOM_OFFSET_BASE = 8`. -/
def BOTTOM_OFFSET_BASE : ℚ := 8

/-- `MAX_SAFE_NESTING_LEVEL = 10`. -/
def MAX_SAFE_NESTING_LEVEL : Nat := 10

/-- `Math.max` on two numbers. -/
def jsMax (a b : ℚ) : ℚ :=
  if a ≤ b then b else a

/-- One entry of the `transforms` array built by `buildTransform`:
`scaleX(...)` or `translateY(...px)`. -/
inductive TransformItem
  | scaleX (amount : ℚ)
  | translateY (px : ℚ)
deriving DecidableEq

/-- `buildTransform(nestingLevel, maxLevel, offset)`: pushes `scaleX` when the
clamped scale is `< 1`, pushes `translateY(offset)` when `nestingLevel > 0`,
and returns `undefined` (here `none`) when nothing was pushed. -/
def buildTransform (nestingLevel maxLevel : Int) (offset : ℚ) : Option (List TransformItem) :=
  let scaleAmount := jsMax MIN_SCALE (1 - ((maxLevel : ℚ) - (nestingLevel : ℚ)) * SCALE_STEP)
  let transforms :=
    (if scaleAmount < 1 then [TransformItem.scaleX scaleAmount] else []) ++
    (if 0 < nestingLevel then [TransformItem.translateY offset] else [])
  if transforms = [] then none else some transforms

/-- The first `scaleX` entry of a transform list, if any. -/
def firstScale : List TransformItem → Option ℚ
  | [] => none
  | .scaleX a :: _ => some a
  | .translateY _ :: rest => firstScale rest

/-- The first `translateY` entry of a transform list, if any. -/
def firstTranslate : List TransformItem → Option ℚ
  | [] => none
  | .translateY a :: _ => some a
  | .scaleX _ :: rest => firstTranslate rest

/-- The scale factor emitted by a geometry result, if any. -/
def scaleOf : Option (List TransformItem) → Option ℚ
  | none => none
  | some ts => firstScale ts

/-- The translation emitted by a geometry result, if any. -/
def translateOf : Option (List TransformItem) → Option ℚ
  | none => none
  | some ts => firstTranslate ts

/-- The style fields computed by `NestedSheetContent` that depend on the
nesting state: the optional `transform`, the optional `bottom` (in px), and
the unconditional `transition` directive. -/
structure PositioningStyle where
  transform : Option (List TransformItem)
  bottom : Option ℚ
  transition : String
deriving DecidableEq

/-- `NestedSheetContent`'s style computation: `appliedOffset = offset ??
nestingLevel * OFFSET_MULTIPLIER`; `transform` from `buildTransform`; `bottom
= appliedOffset + BOTTOM_OFFSET_BASE` only when `nestingLevel > 0`; the
transition directive is always present. -/
def nestedSheetContentStyle (nestingLevel maxLevel : Int) (offset : Option ℚ) :
    PositioningStyle :=
  let defaultOffset := (nestingLevel : ℚ) * OFFSET_MULTIPLIER
  let appliedOffset := offset.getD defaultOffset
  { transform := buildTransform nestingLevel maxLevel appliedOffset
    bottom :=
      if 0 < nestingLevel then some (appliedOffset + BOTTOM_OFFSET_BASE) else none
    transition := "transform 300ms cubic-bezier(0.4, 0, 0.2, 1)" }

/-! ## Context access (`useNestedSheetContext`) -/

/-- The provider-fixed side option. -/
inductive SheetSide
  | left
  | right
deriving DecidableEq

/-- The data carried by the nested-sheet context (the register/unregister/query
closures are the module-level operations above). -/
structure NestedSheetContextValue where
  level : Nat
  maxLevel : Nat
  side : SheetSide
deriving DecidableEq

/-- The error message thrown by `useNestedSheetContext`. -/
def contextErrorMessage : String :=
  "NestedSheet components must be used within a NestedSheetsProvider"

/-- `useNestedSheetContext`: throws when no provider is in scope, otherwise
returns the context value. -/
def useNestedSheetContext (ctx : Option NestedSheetContextValue) :
    Except String NestedSheetContextValue :=
  match ctx with
  | none => Except.error contextErrorMessage
  | some c => Except.ok c

/-! ## The deep-nesting warning effect

The provider runs `React.useEffect(..., [maxLevel])`: the effect body runs on
mount and after every commit in which `maxLevel` changed, and warns when the
new `maxLevel` exceeds `MAX_SAFE_NESTING_LEVEL`.  We embed the effect as a
fold over the trace of committed `maxLevel` values, carrying the previously
committed dependency value. -/

/-- The string passed to `console.warn`. -/
def warnMessage (n : Nat) : String :=
  "[NestedSheets] Deep nesting detected (" ++ toString n ++
    " levels). Consider limiting nesting depth for better UX."

/-- The warnings emitted by the provider's effect over a trace of committed
`maxLevel` values, given the previously committed dependency value (`none` on
mount): the effect is skipped when the dependency is unchanged, and warns when
it runs with a value above the threshold. -/
def providerWarnings : Option Nat → List Nat → List String
  | _, [] => []
  | prev, m :: rest =>
    if prev = some m then
      providerWarnings (some m) rest
    else
      (if MAX_SAFE_NESTING_LEVEL < m then [warnMessage m] else []) ++
        providerWarnings (some m) rest

/-- Collapse consecutive duplicates, given the previously seen value. -/
def dedupFrom : Option Nat → List Nat → List Nat
  | _, [] => []
  | prev, n :: rest =>
    if prev = some n then dedupFrom (some n) rest else n :: dedupFrom (some n) rest

/-- The trace of committed `maxLevel` values produced by a sequence of
register/unregister calls starting from the empty registry (the leading `0`
is the mount-time value of the empty map). -/
def maxLevelTrace (ops : List RegistryOp) : List Nat :=
  (ops.scanl applyOp []).map maxLevel

/-- Modelled from the spec (amended reading): one warning per change of the
committed deepest-open-depth to a value exceeding the threshold. -/
def specNestingWarnings (trace : List Nat) : List String :=
  (dedupFrom none trace).filterMap
    (fun n => if MAX_SAFE_NESTING_LEVEL < n then some (warnMessage n) else none)

/-! ## The register/unregister lifecycle effect

`NestedSheet` runs `React.useEffect` with dependencies `[open, id, level,
registerSheet, unregisterSheet]`; `id`/`level` are fixed for a mounted node
and the two callbacks are stable, so the dependency reduces to the committed
`open` value.  When the effect runs with `open = true` it registers and
schedules an unregister cleanup; with `open = false` it does nothing and
schedules no cleanup.  React runs the pending cleanup before re-running the
effect and at unmount.  We fold over the trace of committed `open` values,
recording for each commit the events fired at that commit. -/

/-- A registry call made by the lifecycle effect of one node. -/
inductive SheetEvent
  | register
  | unregister
deriving DecidableEq

/-- Process the commit trace of one node: state is (previously committed
dependency value, whether a cleanup is pending).  Returns the per-commit fired
events (paired with the committed `open` value) and whether a cleanup is still
pending at the end. -/
def nodeCommitEvents : Option Bool → Bool → List Bool → List (Bool × List SheetEvent) × Bool
  | _, pending, [] => ([], pending)
  | prev, pending, o :: rest =>
    if prev = some o then
      let next := nodeCommitEvents (some o) pending rest
      ((o, []) :: next.1, next.2)
    else
      let fired :=
        (if pending then [SheetEvent.unregister] else []) ++
          (if o then [SheetEvent.register] else [])
      let next := nodeCommitEvents (some o) o rest
      ((o, fired) :: next.1, next.2)

/-- The full lifecycle of one node: the per-commit events over the committed
`open` trace, followed by the unmount cleanup (an unregister exactly when a
cleanup is still pending). -/
def nodeRun (opens : List Bool) : List (Bool × List SheetEvent) × List SheetEvent :=
  let r := nodeCommitEvents none false opens
  (r.1, if r.2 then [SheetEvent.unregister] else [])

/-- All registry calls the node makes over its lifecycle, unmount included. -/
def nodeEvents (opens : List Bool) : List SheetEvent :=
  ((nodeRun opens).1.map Prod.snd).flatten ++ (nodeRun opens).2

/-- Replay an event list against a single registration slot: `some b` is the
final registered state, `none` means a register fired while already registered
or an unregister fired without a matching registration. -/
def runBalance : Bool → List SheetEvent → Option Bool
  | b, [] => some b
  | b, .register :: xs => if b then none else runBalance true xs
  | b, .unregister :: xs => if b then runBalance false xs else none

/-! ## Helper lemmas: the registry -/

lemma foldl_max_mem (v : Nat) (vs : List Nat) : vs.foldl max v ∈ v :: vs := by
  induction vs generalizing v with
  | nil => simp
  | cons w ws ih =>
    have h := ih (max v w)
    simp only [List.foldl_cons]
    rcases List.mem_cons.mp h with h1 | h1
    · rcases max_choice v w with hm | hm
      · rw [h1, hm]; exact List.mem_cons_self _ _
      · rw [h1, hm]; exact List.mem_cons_of_mem _ (List.mem_cons_self _ _)
    · exact List.mem_cons_of_mem _ (List.mem_cons_of_mem _ h1)

lemma le_foldl_max (v : Nat) (vs : List Nat) : ∀ x ∈ v :: vs, x ≤ vs.foldl max v := by
  induction vs generalizing v with
  | nil => intro x hx; simp at hx; simp [hx]
  | cons w ws ih =>
    intro x hx
    simp only [List.foldl_cons]
    have hb := ih (max v w)
    rcases List.mem_cons.mp hx with h1 | h1
    · subst h1
      exact le_trans (le_max_left x w) (hb _ (List.mem_cons_self _ _))
    · rcases List.mem_cons.mp h1 with h2 | h2
      · subst h2
        exact le_trans (le_max_right v x) (hb _ (List.mem_cons_self _ _))
      · exact hb _ (List.mem_cons_of_mem _ h2)

lemma maxLevel_empty (r : Registry) (h : r = []) : maxLevel r = 0 := by
  subst h; rfl

lemma maxLevel_mem (r : Registry) (h : r ≠ []) : maxLevel r ∈ sheetValues r := by
  cases r with
  | nil => exact absurd rfl h
  | cons p rest =>
    simpa [maxLevel, sheetValues] using foldl_max_mem p.2 (rest.map Prod.snd)

lemma le_maxLevel (r : Registry) : ∀ v ∈ sheetValues r, v ≤ maxLevel r := by
  cases r with
  | nil => intro v hv; simp [sheetValues] at hv
  | cons p rest =>
    intro v hv
    simp only [sheetValues, List.map_cons] at hv
    simpa [maxLevel, sheetValues] using le_foldl_max p.2 (rest.map Prod.snd) v hv

lemma mapGet_eq_some_mem (r : Registry) (id : String) (d : Nat)
    (h : mapGet r id = some d) : (id, d) ∈ r := by
  induction r with
  | nil => simp [mapGet] at h
  | cons p rest ih =>
    rw [mapGet] at h
    by_cases hk : p.1 = id
    · rw [if_pos hk] at h
      obtain ⟨k, v⟩ := p
      simp only [Option.some.injEq] at h
      simp only at hk
      subst hk
      subst h
      exact List.mem_cons_self _ _
    · rw [if_neg hk] at h
      exact List.mem_cons_of_mem _ (ih h)

lemma mem_mapGet (r : Registry) (id : String) (d : Nat)
    (hn : keysNodup r) (h : (id, d) ∈ r) : mapGet r id = some d := by
  induction r with
  | nil => simp at h
  | cons p rest ih =>
    simp only [keysNodup, sheetKeys, List.map_cons, List.nodup_cons] at hn
    rcases List.mem_cons.mp h with h1 | h1
    · rw [← h1, mapGet, if_pos rfl]
    · rw [mapGet]
      have hmem : id ∈ List.map Prod.fst rest := List.mem_map.mpr ⟨(id, d), h1, rfl⟩
      have hk : p.1 ≠ id := by
        intro he
        rw [he] at hn
        exact hn.1 hmem
      rw [if_neg hk]
      exact ih hn.2 h1

lemma mapGet_eq_none_iff (r : Registry) (id : String) :
    mapGet r id = none ↔ id ∉ sheetKeys r := by
  induction r with
  | nil => simp [mapGet, sheetKeys]
  | cons p rest ih =>
    rw [mapGet]
    by_cases hk : p.1 = id
    · simp [hk, sheetKeys]
    · rw [if_neg hk]
      simp only [sheetKeys, List.map_cons, List.mem_cons]
      constructor
      · intro hnone hmem
        rcases hmem with h1 | h1
        · exact hk h1.symm
        · exact (ih.mp hnone) h1
      · intro hnm
        exact ih.mpr (fun h1 => hnm (Or.inr h1))

lemma sheetKeys_mapSet (r : Registry) (id : String) (d : Nat) :
    sheetKeys (mapSet r id d) =
      if id ∈ sheetKeys r then sheetKeys r else sheetKeys r ++ [id] := by
  induction r with
  | nil => simp [mapSet, sheetKeys]
  | cons p rest ih =>
    rw [mapSet]
    by_cases hk : p.1 = id
    · simp [hk, sheetKeys]
    · simp only [if_neg hk, sheetKeys, List.map_cons] at ih ⊢
      rw [ih]
      by_cases hm : id ∈ rest.map Prod.fst
      · simp [hm, Ne.symm hk]
      · simp [hm, Ne.symm hk]

lemma keysNodup_mapSet (r : Registry) (id : String) (d : Nat)
    (hn : keysNodup r) : keysNodup (mapSet r id d) := by
  unfold keysNodup at hn ⊢
  rw [sheetKeys_mapSet]
  by_cases hm : id ∈ sheetKeys r
  · simpa [hm] using hn
  · simp only [if_neg hm]
    rw [List.nodup_append]
    exact ⟨hn, List.nodup_singleton id, by simpa using hm⟩

lemma mapDelete_sublist (r : Registry) (id : String) : (mapDelete r id).Sublist r :=
  List.filter_sublist r

lemma keysNodup_mapDelete (r : Registry) (id : String)
    (hn : keysNodup r) : keysNodup (mapDelete r id) :=
  List.Nodup.sublist ((mapDelete_sublist r id).map Prod.fst) hn

lemma keysNodup_applyOp (r : Registry) (op : RegistryOp)
    (hn : keysNodup r) : keysNodup (applyOp r op) := by
  cases op with
  | register id level => exact keysNodup_mapSet r id level hn
  | unregister id => exact keysNodup_mapDelete r id hn

lemma keysNodup_foldl (ops : List RegistryOp) (r : Registry)
    (hn : keysNodup r) : keysNodup (ops.foldl applyOp r) := by
  induction ops generalizing r with
  | nil => exact hn
  | cons op rest ih => exact ih _ (keysNodup_applyOp r op hn)

lemma keysNodup_applyOps (ops : List RegistryOp) : keysNodup (applyOps ops) :=
  keysNodup_foldl ops [] (by simp [keysNodup, sheetKeys])

lemma mapGet_mapSet_self (r : Registry) (id : String) (d : Nat) :
    mapGet (mapSet r id d) id = some d := by
  induction r with
  | nil => simp [mapSet, mapGet]
  | cons p rest ih =>
    rw [mapSet]
    by_cases hk : p.1 = id
    · simp [hk, mapGet]
    · simp [hk, mapGet, ih]

lemma mapGet_mapSet_other (r : Registry) (id id' : String) (d : Nat)
    (h : id' ≠ id) : mapGet (mapSet r id d) id' = mapGet r id' := by
  induction r with
  | nil =>
    have h' : id ≠ id' := Ne.symm h
    simp [mapSet, mapGet, h']
  | cons p rest ih =>
    rw [mapSet]
    by_cases hk : p.1 = id
    · rw [if_pos hk]
      have h' : p.1 ≠ id' := by rw [hk]; exact Ne.symm h
      simp only [mapGet]
      rw [if_neg h', if_neg h']
    · rw [if_neg hk]
      simp only [mapGet]
      by_cases hk2 : p.1 = id'
      · rw [if_pos hk2, if_pos hk2]
      · rw [if_neg hk2, if_neg hk2]
        exact ih

lemma mapGet_mapDelete_other (r : Registry) (id id' : String)
    (h : id' ≠ id) : mapGet (mapDelete r id) id' = mapGet r id' := by
  induction r with
  | nil => simp [mapDelete, mapGet]
  | cons p rest ih =>
    rw [mapDelete, List.filter_cons]
    by_cases hk : p.1 = id
    · have hk' : p.1 ≠ id' := by rw [hk]; exact fun he => h he.symm
      simp only [hk, bne_self_eq_false, Bool.false_eq_true, if_false]
      rw [mapGet, if_neg hk']
      exact ih
    · simp only [bne_iff_ne, ne_eq, hk, not_false_eq_true, if_true]
      rw [mapGet, mapGet]
      by_cases hk2 : p.1 = id'
      · simp [hk2]
      · simp only [if_neg hk2]
        exact ih

lemma mapDelete_absent (r : Registry) (id : String)
    (h : mapGet r id = none) : mapDelete r id = r := by
  induction r with
  | nil => rfl
  | cons p rest ih =>
    rw [mapGet] at h
    by_cases hk : p.1 = id
    · simp [hk] at h
    · simp only [if_neg hk] at h
      rw [mapDelete, List.filter_cons]
      simp only [bne_iff_ne, ne_eq, hk, not_false_eq_true, if_true]
      rw [show List.filter (fun p => p.1 != id) rest = mapDelete rest id from rfl, ih h]

lemma mapSet_length_present (r : Registry) (id : String) (d : Nat)
    (h : id ∈ sheetKeys r) : (mapSet r id d).length = r.length := by
  induction r with
  | nil => simp [sheetKeys] at h
  | cons p rest ih =>
    rw [mapSet]
    by_cases hk : p.1 = id
    · simp [hk]
    · simp only [sheetKeys, List.map_cons, List.mem_cons] at h
      rcases h with h1 | h1
      · exact absurd h1.symm hk
      · simp [hk, List.length_cons, ih h1]

/-! ## Helper lemmas: geometry -/

lemma jsMax_eq_max (a b : ℚ) : jsMax a b = max a b := by
  rw [jsMax, max_def]

lemma le_jsMax_left (a b : ℚ) : a ≤ jsMax a b := by
  rw [jsMax_eq_max]; exact le_max_left a b

lemma le_jsMax_right (a b : ℚ) : b ≤ jsMax a b := by
  rw [jsMax_eq_max]; exact le_max_right a b

lemma scaleOf_buildTransform (nl ml : Int) (off : ℚ) :
    scaleOf (buildTransform nl ml off) =
      if jsMax MIN_SCALE (1 - ((ml : ℚ) - (nl : ℚ)) * SCALE_STEP) < 1
      then some (jsMax MIN_SCALE (1 - ((ml : ℚ) - (nl : ℚ)) * SCALE_STEP))
      else none := by
  by_cases h1 : jsMax MIN_SCALE (1 - ((ml : ℚ) - (nl : ℚ)) * SCALE_STEP) < 1 <;>
    by_cases h2 : 0 < nl <;>
      simp [buildTransform, scaleOf, firstScale, h1, h2]

lemma translateOf_buildTransform (nl ml : Int) (off : ℚ) :
    translateOf (buildTransform nl ml off) = if 0 < nl then some off else none := by
  by_cases h1 : jsMax MIN_SCALE (1 - ((ml : ℚ) - (nl : ℚ)) * SCALE_STEP) < 1 <;>
    by_cases h2 : 0 < nl <;>
      simp [buildTransform, translateOf, firstTranslate, h1, h2]

/-! ## Helper lemmas: the warning effect -/

lemma providerWarnings_eq_dedup (prev : Option Nat) (l : List Nat) :
    providerWarnings prev l =
      (dedupFrom prev l).filterMap
        (fun n => if MAX_SAFE_NESTING_LEVEL < n then some (warnMessage n) else none) := by
  induction l generalizing prev with
  | nil => rfl
  | cons n rest ih =>
    rw [providerWarnings, dedupFrom]
    by_cases hp : prev = some n
    · rw [if_pos hp, if_pos hp, ih]
    · rw [if_neg hp, if_neg hp, List.filterMap_cons, ih]
      by_cases ht : MAX_SAFE_NESTING_LEVEL < n
      · simp [ht]
      · simp [ht]

/-! ## Helper lemmas: the lifecycle effect -/

/-- The reachable relation between the previously committed dependency value
and the pending-cleanup flag: a cleanup is pending iff the last effect run saw
`open = true`. -/
def effInv : Option Bool → Bool → Prop
  | none, pending => pending = false
  | some p, pending => pending = p

lemma runBalance_append (b : Bool) (xs ys : List SheetEvent) :
    runBalance b (xs ++ ys) = (runBalance b xs).bind (fun b' => runBalance b' ys) := by
  induction xs generalizing b with
  | nil => simp [runBalance]
  | cons x rest ih =>
    cases x with
    | register =>
      cases b with
      | true => simp [runBalance]
      | false => simp [runBalance, ih]
    | unregister =>
      cases b with
      | true => simp [runBalance, ih]
      | false => simp [runBalance]

lemma runBalance_fired (prev : Option Bool) (pending o : Bool)
    (hinv : effInv prev pending) (hp : prev ≠ some o) :
    runBalance pending
      ((if pending then [SheetEvent.unregister] else []) ++
        (if o then [SheetEvent.register] else [])) = some o := by
  cases prev with
  | none =>
    have hb : pending = false := hinv
    subst hb
    cases o <;> simp [runBalance]
  | some p =>
    have hb : pending = p := hinv
    subst hb
    cases pending <;> cases o <;> simp_all [runBalance]

lemma unreg_mem_fired (prev : Option Bool) (pending o : Bool)
    (hinv : effInv prev pending) (hp : prev ≠ some o)
    (hm : SheetEvent.unregister ∈
      (if pending then [SheetEvent.unregister] else []) ++
        (if o then [SheetEvent.register] else [])) :
    o = false := by
  cases o with
  | false => rfl
  | true =>
    exfalso
    cases prev with
    | none =>
      have hb : pending = false := hinv
      subst hb
      simp at hm
    | some p =>
      have hb : pending = p := hinv
      subst hb
      cases pending with
      | false => simp at hm
      | true => exact hp rfl

lemma foldl_replace_getLastD (b : Bool) (l : List Bool) :
    l.foldl (fun _ o => o) b = l.getLastD b := by
  induction l generalizing b with
  | nil => rfl
  | cons a rest ih =>
    rw [List.foldl_cons, List.getLastD_cons]
    exact ih a

lemma nodeCommitEvents_spec (opens : List Bool) :
    ∀ (prev : Option Bool) (pending : Bool), effInv prev pending →
      runBalance pending
          (((nodeCommitEvents prev pending opens).1.map Prod.snd).flatten) =
        some (nodeCommitEvents prev pending opens).2 ∧
      (∀ p ∈ (nodeCommitEvents prev pending opens).1,
        SheetEvent.unregister ∈ p.2 → p.1 = false) ∧
      (nodeCommitEvents prev pending opens).2 = opens.foldl (fun _ o => o) pending := by
  induction opens with
  | nil =>
    intro prev pending _
    refine ⟨rfl, ?_, rfl⟩
    intro p hp
    simp [nodeCommitEvents] at hp
  | cons o rest ih =>
    intro prev pending hinv
    by_cases hp : prev = some o
    · have hpd : pending = o := by
        cases prev with
        | none => exact absurd hp (by simp)
        | some p => cases hp; exact hinv
      have hinv' : effInv (some o) pending := hpd
      obtain ⟨ihb, ihf, ihl⟩ := ih (some o) pending hinv'
      rw [nodeCommitEvents, if_pos hp]
      refine ⟨?_, ?_, ?_⟩
      · simpa using ihb
      · intro p hmem
        rcases List.mem_cons.mp hmem with h1 | h1
        · subst h1; intro hm; simp at hm
        · exact ihf p h1
      · rw [List.foldl_cons]
        simpa [hpd] using ihl
    · have hinv' : effInv (some o) o := rfl
      obtain ⟨ihb, ihf, ihl⟩ := ih (some o) o hinv'
      rw [nodeCommitEvents, if_neg hp]
      refine ⟨?_, ?_, ?_⟩
      · simp only [List.map_cons, List.flatten_cons]
        rw [runBalance_append, runBalance_fired prev pending o hinv hp]
        simpa using ihb
      · intro p hmem
        rcases List.mem_cons.mp hmem with h1 | h1
        · subst h1
          intro hm
          exact unreg_mem_fired prev pending o hinv hp hm
        · exact ihf p h1
      · rw [List.foldl_cons]
        exact ihl

/-! ## Claim theorems -/

/-- Claim C1: for every sequence of register/unregister calls starting from the
empty registry, `deepestOpenDepth` (the provider's `maxLevel`) returns 0 when
the mapping is empty and otherwise returns the maximum depth value among all
currently-registered identities. -/
theorem deepestOpenDepth_max (ops : List RegistryOp) :
    (applyOps ops = [] → maxLevel (applyOps ops) = 0) ∧
    (applyOps ops ≠ [] →
      maxLevel (applyOps ops) ∈ sheetValues (applyOps ops) ∧
      ∀ v ∈ sheetValues (applyOps ops), v ≤ maxLevel (applyOps ops)) :=
  ⟨maxLevel_empty _, fun h => ⟨maxLevel_mem _ h, le_maxLevel _⟩⟩

theorem deepestOpenDepth_max_witness :
    maxLevel (applyOps [RegistryOp.register "a" 2, RegistryOp.register "b" 5]) ∈
      sheetValues (applyOps [RegistryOp.register "a" 2, RegistryOp.register "b" 5]) :=
  ((deepestOpenDepth_max [RegistryOp.register "a" 2, RegistryOp.register "b" 5]).2
    (by decide)).1

/-- Claim C2: `hasDeeperOpen(id)` (the provider's `hasNestedSheetOpen`) is
false when `id` is not registered, and when `id` is registered at depth `d` it
is true iff some other registered entry has depth strictly greater than `d`;
equal depths never count as deeper. -/
theorem hasDeeperOpen_strict (ops : List RegistryOp) (id : String) :
    (mapGet (applyOps ops) id = none →
      hasNestedSheetOpen (applyOps ops) id = false) ∧
    (∀ d, mapGet (applyOps ops) id = some d →
      (hasNestedSheetOpen (applyOps ops) id = true ↔
        ∃ p ∈ applyOps ops, p.1 ≠ id ∧ d < p.2)) := by
  constructor
  · intro h
    rw [hasNestedSheetOpen, h]
  · intro d h
    rw [hasNestedSheetOpen, h, List.any_eq_true]
    constructor
    · rintro ⟨v, hv, hlt⟩
      simp only [decide_eq_true_eq] at hlt
      obtain ⟨p, hp, hpv⟩ := List.mem_map.mp hv
      refine ⟨p, hp, ?_, ?_⟩
      · intro hpe
        have hmem : (id, p.2) ∈ applyOps ops := by
          rw [← hpe]
          simpa using hp
        have hget := mem_mapGet (applyOps ops) id p.2 (keysNodup_applyOps ops) hmem
        rw [h] at hget
        injection hget with he
        rw [hpv] at he
        omega
      · rw [hpv]
        exact hlt
    · rintro ⟨p, hp, _, hlt⟩
      exact ⟨p.2, List.mem_map.mpr ⟨p, hp, rfl⟩, by simpa using hlt⟩

theorem hasDeeperOpen_strict_witness :
    hasNestedSheetOpen
      (applyOps [RegistryOp.register "a" 0, RegistryOp.register "b" 1]) "a" = true :=
  ((hasDeeperOpen_strict [RegistryOp.register "a" 0, RegistryOp.register "b" 1] "a").2
    0 (by decide)).mpr ⟨("b", 1), by decide, by decide, by decide⟩

/-- Claim C7: registering an identity that is already registered overwrites its
prior depth without duplicating it (the new depth is stored, key uniqueness is
preserved, and the size does not grow), and unregistering an absent identity is
a no-op; both operations are total Lean functions with no failure path. -/
theorem register_overwrite_unregister_noop (r : Registry) (id : String) (d : Nat) :
    mapGet (registerSheet r id d) id = some d ∧
    (keysNodup r → keysNodup (registerSheet r id d)) ∧
    (id ∈ sheetKeys r → (registerSheet r id d).length = r.length) ∧
    (mapGet r id = none → unregisterSheet r id = r) :=
  ⟨mapGet_mapSet_self r id d,
   keysNodup_mapSet r id d,
   mapSet_length_present r id d,
   mapDelete_absent r id⟩

theorem register_overwrite_unregister_noop_witness :
    (registerSheet [("a", 1)] "a" 9).length = ([(("a" : String), 1)] : Registry).length ∧
    unregisterSheet [("b", 1)] "a" = ([(("b" : String), 1)] : Registry) :=
  ⟨(register_overwrite_unregister_noop [("a", 1)] "a" 9).2.2.1 (by decide),
   (register_overwrite_unregister_noop [("b", 1)] "a" 9).2.2.2 (by decide)⟩

/-- Claim C9: `register(id, depth)` changes only the entry for `id` and leaves
every other identity's mapped depth unchanged, and `unregister(id)` removes at
most the entry for `id`, leaving every other identity's entry unchanged. -/
theorem register_unregister_frame (r : Registry) (id id' : String) (d : Nat)
    (h : id' ≠ id) :
    mapGet (registerSheet r id d) id' = mapGet r id' ∧
    mapGet (unregisterSheet r id) id' = mapGet r id' :=
  ⟨mapGet_mapSet_other r id id' d h, mapGet_mapDelete_other r id id' h⟩

theorem register_unregister_frame_witness :
    mapGet (registerSheet [("b", 3)] "a" 7) "b" = some 3 :=
  ((register_unregister_frame [("b", 3)] "a" "b" 7 (by decide)).1).trans (by decide)

/-- Claim C3: for `k = deepestOpenDepth - depth ≥ 0`, the geometry scale is
`max(0.5, 1 - 0.05·k)` and a scale transform is emitted exactly when that
value is strictly below 1, so a panel at the deepest open depth is unscaled;
k = 0 gives no scale, k = 9 gives 0.55, k = 10 gives 0.5, k = 100 gives 0.5. -/
theorem scale_law (depth maxL : Int) (offset : ℚ) (h : depth ≤ maxL) :
    scaleOf (buildTransform depth maxL offset) =
      (if max (1/2 : ℚ) (1 - ((maxL : ℚ) - (depth : ℚ)) * (5/100)) < 1
       then some (max (1/2 : ℚ) (1 - ((maxL : ℚ) - (depth : ℚ)) * (5/100)))
       else none) ∧
    (depth = maxL → scaleOf (buildTransform depth maxL offset) = none) ∧
    scaleOf (buildTransform 0 0 offset) = none ∧
    scaleOf (buildTransform 0 9 offset) = some (55/100) ∧
    scaleOf (buildTransform 0 10 offset) = some (1/2) ∧
    scaleOf (buildTransform 0 100 offset) = some (1/2) := by
  refine ⟨?_, ?_, ?_, ?_, ?_, ?_⟩
  · rw [scaleOf_buildTransform]
    simp only [jsMax_eq_max, MIN_SCALE, SCALE_STEP]
  · intro he
    subst he
    rw [scaleOf_buildTransform]
    norm_num [jsMax, MIN_SCALE, SCALE_STEP]
  · norm_num [scaleOf, buildTransform, jsMax, firstScale, MIN_SCALE, SCALE_STEP]
  · norm_num [scaleOf, buildTransform, jsMax, firstScale, MIN_SCALE, SCALE_STEP]
  · norm_num [scaleOf, buildTransform, jsMax, firstScale, MIN_SCALE, SCALE_STEP]
  · norm_num [scaleOf, buildTransform, jsMax, firstScale, MIN_SCALE, SCALE_STEP]

theorem scale_law_witness :
    scaleOf (buildTransform 3 3 0) = none :=
  (scale_law 3 3 0 (by norm_num)).2.1 rfl

/-- Claim C4: the geometry output uses `appliedOffset = override ?? depth·16`;
when `depth > 0` it emits a translation by `appliedOffset` and a `bottom`
field of `appliedOffset + 8`, when `depth = 0` it emits neither; the 300 ms
ease-in-out transition directive is present unconditionally; at depth 2 with
no override the translation is 32 and the bottom field is 40. -/
theorem offset_law (depth maxL : Int) (offset : Option ℚ) :
    translateOf ((nestedSheetContentStyle depth maxL offset).transform) =
      (if 0 < depth then some (offset.getD ((depth : ℚ) * 16)) else none) ∧
    (nestedSheetContentStyle depth maxL offset).bottom =
      (if 0 < depth then some (offset.getD ((depth : ℚ) * 16) + 8) else none) ∧
    (nestedSheetContentStyle depth maxL offset).transition =
      "transform 300ms cubic-bezier(0.4, 0, 0.2, 1)" ∧
    translateOf ((nestedSheetContentStyle 2 maxL none).transform) = some 32 ∧
    (nestedSheetContentStyle 2 maxL none).bottom = some 40 := by
  refine ⟨?_, ?_, rfl, ?_, ?_⟩
  · simp only [nestedSheetContentStyle, translateOf_buildTransform, OFFSET_MULTIPLIER]
  · simp only [nestedSheetContentStyle, OFFSET_MULTIPLIER, BOTTOM_OFFSET_BASE]
  · simp only [nestedSheetContentStyle, translateOf_buildTransform, OFFSET_MULTIPLIER]
    norm_num
  · simp only [nestedSheetContentStyle, OFFSET_MULTIPLIER, BOTTOM_OFFSET_BASE]
    norm_num

/-- Claim C10: for every pair of integer inputs (including the unspecified
case `depth > deepestOpenDepth`, reachable through the content renderer's
defaults), any emitted scale lies in `[0.5, 1)`, and when
`depth ≥ deepestOpenDepth` no scale transform is emitted. -/
theorem scale_bounds (depth maxL : Int) (offset : ℚ) :
    (∀ s, scaleOf (buildTransform depth maxL offset) = some s →
      (1/2 : ℚ) ≤ s ∧ s < 1) ∧
    (maxL ≤ depth → scaleOf (buildTransform depth maxL offset) = none) := by
  constructor
  · intro s hs
    rw [scaleOf_buildTransform] at hs
    by_cases hc : jsMax MIN_SCALE (1 - ((maxL : ℚ) - (depth : ℚ)) * SCALE_STEP) < 1
    · rw [if_pos hc] at hs
      injection hs with he
      subst he
      refine ⟨?_, hc⟩
      have := le_jsMax_left MIN_SCALE (1 - ((maxL : ℚ) - (depth : ℚ)) * SCALE_STEP)
      simpa [MIN_SCALE] using this
    · rw [if_neg hc] at hs
      cases hs
  · intro hle
    rw [scaleOf_buildTransform]
    have hc : (maxL : ℚ) ≤ (depth : ℚ) := by exact_mod_cast hle
    have h1 : (1 : ℚ) ≤ 1 - ((maxL : ℚ) - (depth : ℚ)) * SCALE_STEP := by
      show (1 : ℚ) ≤ 1 - ((maxL : ℚ) - (depth : ℚ)) * (5/100)
      nlinarith [hc]
    have h2 : (1 : ℚ) ≤ jsMax MIN_SCALE (1 - ((maxL : ℚ) - (depth : ℚ)) * SCALE_STEP) :=
      le_trans h1 (le_jsMax_right _ _)
    rw [if_neg (not_lt.mpr h2)]

theorem scale_bounds_witness :
    scaleOf (buildTransform 5 3 0) = none :=
  (scale_bounds 5 3 0).2 (by norm_num)

/-- Claim C8: consuming the nested-sheet context without an enclosing provider
raises a thrown error whose message names the violated contract, and never
silently defaults; with a provider in scope the context value is returned. -/
theorem context_requires_provider (ctx : Option NestedSheetContextValue) :
    (ctx = none → useNestedSheetContext ctx =
      Except.error "NestedSheet components must be used within a NestedSheetsProvider") ∧
    (∀ c, ctx = some c → useNestedSheetContext ctx = Except.ok c) := by
  constructor
  · intro h
    subst h
    rfl
  · intro c h
    subst h
    rfl

theorem context_requires_provider_witness :
    useNestedSheetContext none =
      Except.error "NestedSheet components must be used within a NestedSheetsProvider" :=
  (context_requires_provider none).1 rfl

/-- Claim C5, counterexample: with registrations driving the committed
deepest-open-depth through 0, 11, 12, the warning fires twice — once at the
threshold-crossing change to 11 and again at the change to 12 even though the
depth stayed above the threshold — and its text carries a `[NestedSheets] `
prefix, so it is not emitted "exactly once per change that crosses the
threshold" with the exact claimed format. -/
theorem deep_nesting_warning_counterexample :
    (providerWarnings none (maxLevelTrace
      [RegistryOp.register "a" 11, RegistryOp.register "a" 12])).length = 2 ∧
    providerWarnings none (maxLevelTrace
      [RegistryOp.register "a" 11, RegistryOp.register "a" 12]) ≠
      ["Deep nesting detected (11 levels). Consider limiting nesting depth for better UX."] := by
  decide

/-- Claim C5, amended: the provider's effect emits the advisory line
`[NestedSheets] Deep nesting detected (N levels). Consider limiting nesting
depth for better UX.` once per commit at which the deepest-open-depth changed
to a value exceeding the threshold of 10 — not on every render (re-renders at
an unchanged depth emit nothing), but again on each subsequent depth change
while above the threshold; warnings are plain data (`console.warn`), never a
thrown error, and the registry state is computed independently of them. -/
theorem deep_nesting_warning_on_change (ops : List RegistryOp) :
    providerWarnings none (maxLevelTrace ops) =
      specNestingWarnings (maxLevelTrace ops) ∧
    providerWarnings none [0, 11, 11, 11] = [warnMessage 11] ∧
    warnMessage 11 =
      "[NestedSheets] Deep nesting detected (11 levels). Consider limiting nesting depth for better UX." :=
  ⟨providerWarnings_eq_dedup none (maxLevelTrace ops), by decide, by decide⟩

/-- Claim C6: over any committed `open` trace of one node (unmount included),
the register/unregister events balance exactly — every register is closed by
exactly one unregister, never two, and no unregister fires unmatched; an
unregister fired at a commit happens only when the committed `open` is false,
and the unmount cleanup unregisters only when the last committed `open` was
true; a true→false→true toggle inside one synchronous batch commits as an
unchanged dependency, fires no events, and leaves exactly one registration
active. -/
theorem register_lifecycle (opens : List Bool) :
    runBalance false (nodeEvents opens) = some false ∧
    (∀ p ∈ (nodeRun opens).1, SheetEvent.unregister ∈ p.2 → p.1 = false) ∧
    ((nodeRun opens).2 ≠ [] → opens.getLastD false = true) ∧
    (nodeRun [true, true]).1.map Prod.snd = [[SheetEvent.register], []] ∧
    runBalance false (((nodeRun [true, true]).1.map Prod.snd).flatten) = some true := by
  obtain ⟨hb, hf, hl⟩ := nodeCommitEvents_spec opens none false rfl
  refine ⟨?_, ?_, ?_, by decide, by decide⟩
  · rw [nodeEvents, runBalance_append]
    have h1 : (nodeRun opens).1 = (nodeCommitEvents none false opens).1 := rfl
    have h2 : (nodeRun opens).2 =
        (if (nodeCommitEvents none false opens).2 then [SheetEvent.unregister] else []) :=
      rfl
    rw [h1, h2, hb]
    cases hcb : (nodeCommitEvents none false opens).2 <;> simp [hcb, runBalance]
  · intro p hp hm
    exact hf p hp hm
  · intro hne
    have h2 : (nodeRun opens).2 =
        (if (nodeCommitEvents none false opens).2 then [SheetEvent.unregister] else []) :=
      rfl
    rw [h2] at hne
    by_cases hcb : (nodeCommitEvents none false opens).2
    · rw [← foldl_replace_getLastD, ← hl]
      exact hcb
    · rw [if_neg hcb] at hne
      exact absurd rfl hne

theorem register_lifecycle_witness :
    ([true] : List Bool).getLastD false = true :=
  (register_lifecycle [true]).2.2.1 (by decide)

end NestedSheets
